import Mathlib

set_option maxHeartbeats 1000000

/-!
Shallow embedding of the chunked-upload orchestrator in src/index.ts
(class ChunkedUploader).  Blobs are modelled by their byte lists;
promise-valued fields (a chunk's response and digest) are modelled by their
resolved values when available (Option).  The caller-supplied transport
(requester) is modelled by an oracle giving, per chunk index, the outcome of
one upload attempt.  All state mutation done by a method between the moment
it is called and the moment the whole round of asynchronous work has settled
is folded into one deterministic function per method (the per-chunk effects
commute, so the quiescent post-state does not depend on the interleaving).
-/

namespace ChunkedUploader

/-- Upload status of a single chunk (source: Chunk.status, values
idle / pending / success). -/
inductive CStatus
  | idle
  | pending
  | success
deriving DecidableEq

/-- Overall status of the uploader (source: ChunkedUploader.#status, values
pending / success / idle / error / paused). -/
inductive UStatus
  | idle
  | pending
  | success
  | error
  | paused
deriving DecidableEq

/-- One chunk of the file (source: interface Chunk).  The field `stop` models
the source field `end` (a Lean keyword): the first byte not included.
`bytes` is the content of the chunk's blob.  `response` is the stored
response token (None = undefined), `hash` the resolved per-chunk digest
when already computed (the source stores promises for both). -/
structure Chunk where
  index : Nat
  start : Nat
  stop : Nat
  bytes : List Nat
  status : CStatus
  response : Option Nat
  hash : Option Nat
deriving DecidableEq

/-- Immutable file metadata captured at construction (source: FileInfo). -/
structure FileInfo where
  name : String
  size : Nat
  lastModified : Nat
deriving DecidableEq

/-- The mutable state of a ChunkedUploader instance.  `finiteLimit` records
whether the configured request-concurrency limit is finite
(Number.isFinite(options.limit)); the default limit is Infinity. -/
structure State where
  fileInfo : FileInfo
  chunks : List Chunk
  total : Nat
  loaded : Nat
  status : UStatus
  error : Option String
  onLine : Bool
  finiteLimit : Bool
deriving DecidableEq

/-- The value produced by store() (source: { ...fileInfo, chunks }). -/
structure StoredFile where
  name : String
  size : Nat
  lastModified : Nat
  chunks : List Chunk
deriving DecidableEq

/-- Outcome of one attempt to upload one chunk, as decided by the
environment (transport collaborator plus body/headers preparation):
`prepError` = the awaited body()/headers() option throws before the request
is issued (e.g. the per-chunk digest promise rejects); `respond b` = the
request is issued and the returned promise later rejects iff `b = true`. -/
inductive ReqOutcome
  | prepError
  | respond (rejects : Bool)
deriving DecidableEq

/-- One observed change of one chunk's status field: chunk labelled `idx`
went from `pre` to `post` by a single assignment in the source. -/
structure StatusEvent where
  idx : Nat
  pre : CStatus
  post : CStatus
deriving DecidableEq

/-- Record a status assignment as an event only when it changes the value. -/
def transEvents (i : Nat) (a b : CStatus) : List StatusEvent :=
  if a = b then [] else [⟨i, a, b⟩]

/-- Math.ceil(size / chunkSize) over naturals, for chunkSize ≥ 1
(source: line `this.#total = Math.ceil(file.size / ...chunkSize)`). -/
def ceilTotal (size chunkSize : Nat) : Nat :=
  (size + chunkSize - 1) / chunkSize

/-- blob.slice(a, b): the bytes of the half-open range [a, b). -/
def sliceBytes (payload : List Nat) (a b : Nat) : List Nat :=
  (payload.drop a).take (b - a)

/-- The chunk list built by the constructor from a fresh file or buffer
(source: Array.from({length: total}, (_, index) => { start, end, ... })).
Per-chunk digests start as pending promises, modelled as not yet resolved. -/
def buildChunks (payload : List Nat) (cs : Nat) : List Chunk :=
  (List.range (ceilTotal payload.length cs)).map fun i =>
    { index := i
      start := i * cs
      stop := min ((i + 1) * cs) payload.length
      bytes := sliceBytes payload (i * cs) (min ((i + 1) * cs) payload.length)
      status := CStatus.idle
      response := none
      hash := none }

/-- Outcome of the constructor's chunk planning for an arbitrary (possibly
invalid) chunkSize.  The source performs no validation: for chunkSize > 0 it
builds the ranges; for chunkSize < 0, Math.ceil yields a negative count and
Array.from clamps it to length 0; for chunkSize = 0 with size = 0 the count
is NaN, clamped to 0; for chunkSize = 0 with size > 0 the count is Infinity
and array construction fails with a host RangeError.  No ConfigurationError
class exists anywhere in the source. -/
inductive PlanOutcome
  | ok (chunks : List Chunk)
  | rangeError
deriving DecidableEq

/-- Chunk planning as performed by the constructor, for arbitrary chunkSize. -/
def constructPlan (payload : List Nat) (chunkSize : Int) : PlanOutcome :=
  if 0 < chunkSize then PlanOutcome.ok (buildChunks payload chunkSize.toNat)
  else if chunkSize < 0 then PlanOutcome.ok []
  else if payload.length = 0 then PlanOutcome.ok []
  else PlanOutcome.rangeError

/-- The number of chunks whose status is success. -/
def countSuccess (cs : List Chunk) : Nat :=
  cs.countP fun c => decide (c.status = CStatus.success)

/-- The constructor, applied to a fresh File / ArrayBuffer payload
(chunkSize ≥ 1): plans the chunks, total = ceil(size/chunkSize), loaded = 0,
status idle. -/
def fresh (name : String) (lastModified : Nat) (payload : List Nat)
    (chunkSize : Nat) (finiteLimit onLine : Bool) : State :=
  { fileInfo := { name := name, size := payload.length, lastModified := lastModified }
    chunks := buildChunks payload chunkSize
    total := ceilTotal payload.length chunkSize
    loaded := 0
    status := UStatus.idle
    error := none
    onLine := onLine
    finiteLimit := finiteLimit }

/-- The constructor, applied to a previously stored value (source: the
`else` branch taking file.chunks verbatim, total = chunks.length, loaded =
number of chunks already success). -/
def restore (st : StoredFile) (finiteLimit onLine : Bool) : State :=
  { fileInfo := { name := st.name, size := st.size, lastModified := st.lastModified }
    chunks := st.chunks
    total := st.chunks.length
    loaded := countSuccess st.chunks
    status := UStatus.idle
    error := none
    onLine := onLine
    finiteLimit := finiteLimit }

/-- Effect of #uploadChunk on one chunk.  `inc` is the number of times
#loaded++ ran, `reqLog` the chunk indexes for which the transport was
actually invoked, `rejected` whether the promise this call contributes to
Promise.all ends up rejected.  Mirrors the source exactly: an
already-success chunk is counted again without any request; otherwise the
chunk is marked pending, and if preparation succeeds the request is issued
and the chunk is marked success (and its response stored) as soon as the
call returns, without awaiting the response promise. -/
structure ChunkOut where
  chunk : Chunk
  inc : Nat
  events : List StatusEvent
  reqLog : List Nat
  rejected : Bool
  dispatched : List String
deriving DecidableEq

def uploadChunk (req : Nat → ReqOutcome) (c : Chunk) : ChunkOut :=
  if c.status = CStatus.success then
    { chunk := c, inc := 1, events := [], reqLog := [], rejected := false
      dispatched := ["progress"] }
  else
    match req c.index with
    | ReqOutcome.prepError =>
      { chunk := { c with status := CStatus.idle }
        inc := 0
        events := transEvents c.index c.status CStatus.pending
          ++ [⟨c.index, CStatus.pending, CStatus.idle⟩]
        reqLog := []
        rejected := true
        dispatched := [] }
    | ReqOutcome.respond rej =>
      { chunk := { c with status := CStatus.success, response := some c.index }
        inc := 1
        events := transEvents c.index c.status CStatus.pending
          ++ [⟨c.index, CStatus.pending, CStatus.success⟩]
        reqLog := [c.index]
        rejected := rej
        dispatched := ["progress"] }

/-- Quiescent effect of one Promise.all pass over the whole chunk list. -/
structure PassOut where
  chunks : List Chunk
  inc : Nat
  responses : List (Option Nat)
  events : List StatusEvent
  reqLog : List Nat
  rejected : Bool
  dispatched : List String
deriving DecidableEq

def runPass (req : Nat → ReqOutcome) : List Chunk → PassOut
  | [] =>
    { chunks := [], inc := 0, responses := [], events := [], reqLog := []
      rejected := false, dispatched := [] }
  | c :: cs =>
    let o := uploadChunk req c
    let rest := runPass req cs
    { chunks := o.chunk :: rest.chunks
      inc := o.inc + rest.inc
      responses := o.chunk.response :: rest.responses
      events := o.events ++ rest.events
      reqLog := o.reqLog ++ rest.reqLog
      rejected := o.rejected || rest.rejected
      dispatched := o.dispatched ++ rest.dispatched }

/-- Result of one public method call once all work it triggered has
settled: the new state, the value the returned promise resolves with
(none = undefined / false), the chunk-status events, the transport
invocations and the uploader events dispatched. -/
structure OpOut where
  state : State
  result : Option (List (Option Nat))
  events : List StatusEvent
  reqLog : List Nat
  dispatched : List String
deriving DecidableEq

/-- #uploadChunks.  Offline: set #error to an Error named OfflineError, go
paused, dispatch pause, resolve undefined.  Otherwise run one Promise.all
pass over all chunks; if the configured limit is finite the source runs a
second, unconditional pass (the limited pass at line 205 is not followed by
an else, so line 207 runs again over every chunk).  A rejection drives
status to error (the surrounding try/catch stores the rejection reason,
modelled by the tag "UploadError") and dispatches error then end; success
dispatches success then end. -/
def uploadChunks (req : Nat → ReqOutcome) (s : State) : OpOut :=
  if s.onLine = false then
    { state := { s with error := some "OfflineError", status := UStatus.paused }
      result := none, events := [], reqLog := [], dispatched := ["pause"] }
  else
    let p1 := runPass req s.chunks
    if p1.rejected then
      { state := { s with chunks := p1.chunks, loaded := s.loaded + p1.inc
                          status := UStatus.error, error := some "UploadError" }
        result := none, events := p1.events, reqLog := p1.reqLog
        dispatched := p1.dispatched ++ ["error", "end"] }
    else if s.finiteLimit then
      let p2 := runPass req p1.chunks
      if p2.rejected then
        { state := { s with chunks := p2.chunks, loaded := s.loaded + p1.inc + p2.inc
                            status := UStatus.error, error := some "UploadError" }
          result := none, events := p1.events ++ p2.events
          reqLog := p1.reqLog ++ p2.reqLog
          dispatched := p1.dispatched ++ p2.dispatched ++ ["error", "end"] }
      else
        { state := { s with chunks := p2.chunks, loaded := s.loaded + p1.inc + p2.inc
                            status := UStatus.success }
          result := some p2.responses
          events := p1.events ++ p2.events
          reqLog := p1.reqLog ++ p2.reqLog
          dispatched := p1.dispatched ++ p2.dispatched ++ ["success", "end"] }
    else
      { state := { s with chunks := p1.chunks, loaded := s.loaded + p1.inc
                          status := UStatus.success }
        result := some p1.responses, events := p1.events, reqLog := p1.reqLog
        dispatched := p1.dispatched ++ ["success", "end"] }

/-- The skip-index pre-seeding loop of start(): for each listed position
with a chunk present, set its status to success (whatever it was). -/
def markSkipsAux (skips : List Nat) : Nat → List Chunk → List Chunk × List StatusEvent
  | _, [] => ([], [])
  | i, c :: cs =>
    let r := markSkipsAux skips (i + 1) cs
    if i ∈ skips then
      (({ c with status := CStatus.success }) :: r.1,
        transEvents c.index c.status CStatus.success ++ r.2)
    else (c :: r.1, r.2)

/-- start(skipIndexes): only proceeds from overall status idle; marks the
skip positions success, then delegates to #uploadChunks. -/
def start (skips : List Nat) (req : Nat → ReqOutcome) (s : State) : OpOut :=
  if s.status = UStatus.idle then
    let m := markSkipsAux skips 0 s.chunks
    let o := uploadChunks req { s with chunks := m.1 }
    { o with events := m.2 ++ o.events }
  else
    { state := s, result := none, events := [], reqLog := [], dispatched := [] }

/-- pause(): only from pending; sets status paused (the internal abort()
call then sees a non-pending status and does nothing) and dispatches pause.
Returns whether it paused. -/
def pause (s : State) : State × Bool × List String :=
  if s.status = UStatus.pending then
    ({ s with status := UStatus.paused }, true, ["pause"])
  else (s, false, [])

/-- resume(): only from paused; clears the stored error, dispatches resume
and re-runs #uploadChunks. -/
def resume (req : Nat → ReqOutcome) (s : State) : OpOut :=
  if s.status = UStatus.paused then
    let o := uploadChunks req { s with error := none }
    { o with dispatched := "resume" :: o.dispatched }
  else
    { state := s, result := none, events := [], reqLog := [], dispatched := [] }

/-- The onLine setter: store the flag; true while paused resumes, false
while pending pauses. -/
def setOnLine (v : Bool) (req : Nat → ReqOutcome) (s : State) : OpOut :=
  let s1 := { s with onLine := v }
  if v then
    if s1.status = UStatus.paused then resume req s1
    else { state := s1, result := none, events := [], reqLog := [], dispatched := [] }
  else
    if s1.status = UStatus.pending then
      let r := pause s1
      { state := r.1, result := none, events := [], reqLog := [], dispatched := r.2.2 }
    else { state := s1, result := none, events := [], reqLog := [], dispatched := [] }

/-- abort(): only while pending; signals the shared AbortController and
detaches the connectivity listeners (neither is part of the modelled
state); returns whether it aborted. -/
def abort (s : State) : State × Bool :=
  if s.status = UStatus.pending then (s, true) else (s, false)

/-- The per-chunk normalization done by store(): spread the chunk, map any
non-success status back to idle and clear the response; every other field
(index, range, bytes/blob, digest) is carried over. -/
def storeChunk (c : Chunk) : Chunk :=
  { c with
    status := if c.status = CStatus.success then CStatus.success else CStatus.idle
    response := none }

/-- store(): the file info plus the normalized chunk list. -/
def store (s : State) : StoredFile :=
  { name := s.fileInfo.name, size := s.fileInfo.size
    lastModified := s.fileInfo.lastModified
    chunks := s.chunks.map storeChunk }

/-- The whole-payload digest loop of the constructor (#hash): one shared
incremental hasher, updated with every chunk's bytes in index order,
sequentially, then digested.  The incremental hasher is modelled
initially: its state is the list of bytes consumed so far, update appends,
and digest is an arbitrary function `d` of that state. -/
def hash {α : Type} (d : List Nat → α) (chunks : List Chunk) : α :=
  d (chunks.foldl (fun st c => st ++ c.bytes) [])

/-- Concatenation of all chunk byte ranges in index order. -/
def concatBytes (chunks : List Chunk) : List Nat :=
  (chunks.map fun c => c.bytes).flatten

/-- The chunk-status transition diagram exactly as the specification states
it: idle → pending → {success, idle}. -/
def specEdge : CStatus → CStatus → Bool
  | CStatus.idle, CStatus.pending => true
  | CStatus.pending, CStatus.success => true
  | CStatus.pending, CStatus.idle => true
  | _, _ => false

/-- The diagram amended with the one extra edge the code actually takes:
skip-index pre-seeding sets a chunk directly to success. -/
def amendedEdge (a b : CStatus) : Bool :=
  specEdge a b || (decide (a = CStatus.idle) && decide (b = CStatus.success))

/-- All recorded status changes follow the (amended) diagram. -/
def evOk (evs : List StatusEvent) : Prop :=
  ∀ e ∈ evs, amendedEdge e.pre e.post = true

/-- Chunk-list stability: the lists correspond position by position and any
chunk already success is still success afterwards. -/
def stable (a b : List Chunk) : Prop :=
  List.Forall₂
    (fun c c2 => c.status = CStatus.success → c2.status = CStatus.success) a b

/-! ### Shared helper lemmas -/

theorem uploadChunk_of_success {req : Nat → ReqOutcome} {c : Chunk}
    (h : c.status = CStatus.success) : uploadChunk req c =
      { chunk := c, inc := 1, events := [], reqLog := [], rejected := false
        dispatched := ["progress"] } := by
  simp [uploadChunk, h]

theorem uploadChunk_not_rejected {req : Nat → ReqOutcome} (c : Chunk)
    (h : ∀ i, req i = ReqOutcome.respond false) :
    (uploadChunk req c).rejected = false := by
  unfold uploadChunk
  by_cases hc : c.status = CStatus.success
  · simp [hc]
  · simp [hc, h c.index]

theorem runPass_not_rejected {req : Nat → ReqOutcome}
    (h : ∀ i, req i = ReqOutcome.respond false) :
    ∀ cs : List Chunk, (runPass req cs).rejected = false := by
  intro cs
  induction cs with
  | nil => rfl
  | cons c cs ih => simp [runPass, ih, uploadChunk_not_rejected c h]

/-! ### Claim theorems -/

/-- Claim C1 (code bug): after a successful start() the loaded counter is
supposed to equal the number of success chunks and never exceed total, for
any configured concurrency limit.  Evaluating the embedded code refutes
this twice.  With a finite limit (here: 2 one-byte chunks, all requests
succeeding) start() resolves with loaded = 4 while total = 2 and only 2
chunks are success: the finite-limit branch of #uploadChunks is not
followed by an else, so the unconditional second Promise.all pass
re-counts every (now success) chunk.  And restoring a snapshot holding one
success chunk out of two, then running start() with the default infinite
limit, ends with loaded = 3: the constructor already counted the stored
success chunk and #uploadChunk counts it again. -/
theorem C1_loaded_overcount :
    (let s := fresh "f" 0 [0, 1] 1 true true
     let o := start [] (fun _ => ReqOutcome.respond false) s
     o.state.status = UStatus.success ∧ o.state.total = 2
       ∧ countSuccess o.state.chunks = 2 ∧ o.state.loaded = 4)
    ∧ (let c0 : Chunk := { index := 0, start := 0, stop := 1, bytes := [0]
                           status := CStatus.success, response := none, hash := none }
       let c1 : Chunk := { index := 1, start := 1, stop := 2, bytes := [1]
                           status := CStatus.idle, response := none, hash := none }
       let s := restore { name := "f", size := 2, lastModified := 0, chunks := [c0, c1] }
         false true
       let o := start [] (fun _ => ReqOutcome.respond false) s
       s.loaded = 1 ∧ s.total = 2 ∧ o.state.status = UStatus.success
         ∧ countSuccess o.state.chunks = 2 ∧ o.state.loaded = 3) := by
  decide

/-- Claim C2 (code bug): the claim (and the doc comment on Chunk.status in
the source) says a chunk whose requester rejects is reset to idle and that
start() can then retry the idle chunks from the error state.  Evaluating
the embedded code on a single-chunk upload whose transport rejects: the
chunk ends with status success and loaded = 1 (the source marks the chunk
success as soon as the request is issued, without awaiting the response
promise, so the rejection never reaches the catch that resets the status),
the overall status is error, and a second start() from that error state is
a complete no-op (guard requires status idle): no transport call is made
and the state is unchanged. -/
theorem C2_no_idle_reset_no_retry :
    (let s := fresh "f" 0 [7] 1 false true
     let o := start [] (fun _ => ReqOutcome.respond true) s
     let o2 := start [] (fun _ => ReqOutcome.respond false) o.state
     o.state.status = UStatus.error
       ∧ (o.state.chunks.map fun c => c.status) = [CStatus.success]
       ∧ o.state.loaded = 1
       ∧ o2.state = o.state
       ∧ o2.reqLog = []) := by
  decide

/-- Claim C3 (counterexample): the claim says the number of chunks equals
max(1, ceil(size/chunkSize)) and that a zero-byte payload yields exactly
one chunk with an empty range.  The embedded constructor yields an empty
chunk list for a zero-byte payload: Math.ceil(0 / chunkSize) = 0. -/
theorem C3_zero_size_counterexample :
    (buildChunks [] 1).length = 0 ∧ max 1 (ceilTotal 0 1) = 1 := by
  decide

/-- Claim C4 (counterexample): the claim says construction with
chunkSize ≤ 0 fails synchronously with a ConfigurationError.  With
chunkSize = -1 and a 10-byte payload, construction does not fail at all:
it completes normally with an empty chunk list (Math.ceil gives a negative
count which Array.from clamps to 0), so no error of any kind is raised. -/
theorem C4_no_validation_counterexample :
    constructPlan (List.replicate 10 0) (-1) = PlanOutcome.ok [] ∧ (-1 : Int) ≤ 0 := by
  decide

/-- Claim C4 (amended): the constructor performs no chunk-size validation
and the source defines no ConfigurationError.  For chunkSize < 0 (or a
zero-byte payload) construction succeeds with an empty chunk list; only
chunkSize = 0 with a non-empty payload fails, and then with the host
RangeError raised while building an Infinity-length array. -/
theorem C4_amended_no_configuration_error (payload : List Nat) (cs : Int) (h : cs ≤ 0) :
    (cs < 0 ∨ payload.length = 0 → constructPlan payload cs = PlanOutcome.ok [])
    ∧ (cs = 0 ∧ 0 < payload.length → constructPlan payload cs = PlanOutcome.rangeError) := by
  constructor
  · intro hcase
    rcases hcase with hneg | hzero
    · simp [constructPlan, hneg, not_lt.mpr h]
    · unfold constructPlan
      rcases lt_or_eq_of_le h with hlt | heq
      · simp [hlt, not_lt.mpr h]
      · simp [heq, hzero]
  · rintro ⟨hz, hp⟩
    have hne : payload.length ≠ 0 := by omega
    simp [constructPlan, hz, hne]

theorem C4_amended_witness :
    constructPlan [5] 0 = PlanOutcome.rangeError :=
  (C4_amended_no_configuration_error [5] 0 (by decide)).2 ⟨rfl, by decide⟩

/-- Claim C5 (counterexample): the claim says each chunk's resolved
response is included in the store() value if already computed.  On a state
whose single success chunk has a resolved response, store() returns the
chunk with response cleared to undefined: the source maps every chunk to
{ ...chunk, response: undefined }. -/
theorem C5_response_cleared_counterexample :
    let c : Chunk := { index := 0, start := 0, stop := 1, bytes := [7]
                       status := CStatus.success, response := some 5, hash := some 9 }
    let s : State := { fileInfo := ⟨"f", 1, 0⟩, chunks := [c], total := 1, loaded := 1
                       status := UStatus.success, error := none, onLine := true
                       finiteLimit := false }
    ((store s).chunks.map fun c2 => c2.response) = [none]
      ∧ ((store s).chunks.map fun c2 => c2.response) ≠ [some 5] := by
  decide

theorem forall₂_map_self {α β : Type} (R : α → β → Prop) (f : α → β)
    (h : ∀ a, R a (f a)) : ∀ l : List α, List.Forall₂ R l (l.map f) := by
  intro l
  induction l with
  | nil => simp
  | cons a l ih => exact List.Forall₂.cons (h a) ih

/-- Claim C5 (amended): store() returns the file info plus a chunk list in
which every non-success chunk (including in-flight pending ones) is
normalized to idle and every success chunk stays success; each chunk's
digest, byte content (blob) and range are carried over unchanged, but the
response is always cleared to undefined, never included. -/
theorem C5_amended_store_normalizes (s : State) :
    (store s).name = s.fileInfo.name
    ∧ (store s).size = s.fileInfo.size
    ∧ (store s).lastModified = s.fileInfo.lastModified
    ∧ List.Forall₂ (fun c c2 =>
        c2.status = (if c.status = CStatus.success then CStatus.success else CStatus.idle)
        ∧ c2.response = none
        ∧ c2.hash = c.hash ∧ c2.bytes = c.bytes ∧ c2.index = c.index
        ∧ c2.start = c.start ∧ c2.stop = c.stop)
      s.chunks (store s).chunks := by
  refine ⟨rfl, rfl, rfl, ?_⟩
  exact forall₂_map_self _ storeChunk (fun c => ⟨rfl, rfl, rfl, rfl, rfl, rfl, rfl⟩) s.chunks

/-- Claim C7: starting while offline (status idle, onLine false) goes
directly to paused, dispatches a pause event, resolves with undefined and
issues no transport call, whatever the skip list and the transport. -/
theorem C7_offline_start (s : State) (skips : List Nat) (req : Nat → ReqOutcome)
    (hidle : s.status = UStatus.idle) (hoff : s.onLine = false) :
    (start skips req s).state.status = UStatus.paused
    ∧ (start skips req s).result = none
    ∧ (start skips req s).reqLog = []
    ∧ (start skips req s).dispatched = ["pause"] := by
  simp [start, hidle, uploadChunks, hoff]

theorem C7_offline_start_witness :
    (start [1] (fun _ => ReqOutcome.respond false) (fresh "f" 0 [7] 1 false false)).state.status
        = UStatus.paused
    ∧ (start [1] (fun _ => ReqOutcome.respond false) (fresh "f" 0 [7] 1 false false)).result
        = none :=
  ⟨(C7_offline_start (fresh "f" 0 [7] 1 false false) [1] (fun _ => ReqOutcome.respond false)
      rfl rfl).1,
   (C7_offline_start (fresh "f" 0 [7] 1 false false) [1] (fun _ => ReqOutcome.respond false)
      rfl rfl).2.1⟩

/-- Claim C10 (counterexample): the claim says that setting onLine to false
while status is pending also stores an OfflineError.  It does not: the
setter then calls pause(), which changes the status to paused and
dispatches pause but never assigns the error property, so the error stays
undefined. -/
theorem C10_pause_no_offline_error_counterexample :
    let c : Chunk := { index := 0, start := 0, stop := 1, bytes := [7]
                       status := CStatus.pending, response := none, hash := none }
    let s : State := { fileInfo := ⟨"f", 1, 0⟩, chunks := [c], total := 1, loaded := 0
                       status := UStatus.pending, error := none, onLine := true
                       finiteLimit := false }
    (setOnLine false (fun _ => ReqOutcome.respond false) s).state.status = UStatus.paused
      ∧ (setOnLine false (fun _ => ReqOutcome.respond false) s).state.error = none := by
  decide

/-- Claim C10 (amended): an Error named OfflineError is stored exactly when
an upload round begins while onLine is false: start() from idle while
offline stores it (status paused, no error event dispatched), and resume()
while still offline stores it again; setting onLine to false while pending
merely pauses, leaving the stored error untouched; resume() clears the
stored error, and when the connection is back and every request succeeds
the error stays cleared. -/
theorem C10_amended_offline_error (s : State) (req : Nat → ReqOutcome) :
    (s.status = UStatus.idle → s.onLine = false →
      (start [] req s).state.error = some "OfflineError"
      ∧ (start [] req s).state.status = UStatus.paused
      ∧ "error" ∉ (start [] req s).dispatched)
    ∧ (s.status = UStatus.pending →
      (setOnLine false req s).state.error = s.error
      ∧ (setOnLine false req s).state.status = UStatus.paused)
    ∧ (s.status = UStatus.paused → s.onLine = false →
      (resume req s).state.error = some "OfflineError")
    ∧ (s.status = UStatus.paused → s.onLine = true →
      (∀ i, req i = ReqOutcome.respond false) →
      (resume req s).state.error = none) := by
  refine ⟨?_, ?_, ?_, ?_⟩
  · intro hidle hoff
    simp [start, hidle, uploadChunks, hoff]
  · intro hpend
    simp [setOnLine, pause, hpend]
  · intro hpaused hoff
    simp [resume, hpaused, uploadChunks, hoff]
  · intro hpaused hon hreq
    have h1 := runPass_not_rejected hreq
    by_cases hf : s.finiteLimit <;>
      simp [resume, hpaused, uploadChunks, hon, h1, hf]

theorem ceil_mul_lt {n cs i : Nat} (hcs : 1 ≤ cs) (h : i < ceilTotal n cs) :
    i * cs < n := by
  unfold ceilTotal at h
  have h2 : (i + 1) * cs ≤ n + cs - 1 :=
    (Nat.le_div_iff_mul_le (by omega)).mp h
  rw [Nat.succ_mul] at h2
  generalize i * cs = x at *
  omega

theorem le_ceil_mul {n cs : Nat} (hcs : 1 ≤ cs) : n ≤ ceilTotal n cs * cs := by
  unfold ceilTotal
  have h1 := Nat.div_add_mod (n + cs - 1) cs
  have h2 : (n + cs - 1) % cs < cs := Nat.mod_lt _ (by omega)
  rw [Nat.mul_comm]
  generalize (n + cs - 1) / cs = q at *
  generalize (n + cs - 1) % cs = r at *
  generalize hx : cs * q = x at *
  omega

theorem buildChunks_length (payload : List Nat) (cs : Nat) :
    (buildChunks payload cs).length = ceilTotal payload.length cs := by
  simp [buildChunks]

theorem buildChunks_get {payload : List Nat} {cs i : Nat}
    (h : i < (buildChunks payload cs).length) :
    (buildChunks payload cs).get ⟨i, h⟩ =
      { index := i
        start := i * cs
        stop := min ((i + 1) * cs) payload.length
        bytes := sliceBytes payload (i * cs) (min ((i + 1) * cs) payload.length)
        status := CStatus.idle
        response := none
        hash := none } := by
  simp [buildChunks]

/-- Claim C3 (amended): for any payload and chunkSize ≥ 1 the constructor
produces chunks in strictly increasing index order whose half-open ranges
are nonempty, contiguous, pairwise non-overlapping and cover
[0, size); their number (and total) is ceil(size/chunkSize) with no lower
bound of 1: a zero-byte payload yields zero chunks. -/
theorem C3_amended_layout (payload : List Nat) (cs : Nat) (hcs : 1 ≤ cs) :
    (buildChunks payload cs).length = ceilTotal payload.length cs
    ∧ (∀ i (h : i < (buildChunks payload cs).length),
        ((buildChunks payload cs).get ⟨i, h⟩).index = i
        ∧ ((buildChunks payload cs).get ⟨i, h⟩).start = i * cs
        ∧ ((buildChunks payload cs).get ⟨i, h⟩).stop
            = min ((i + 1) * cs) payload.length
        ∧ ((buildChunks payload cs).get ⟨i, h⟩).start
            < ((buildChunks payload cs).get ⟨i, h⟩).stop)
    ∧ (∀ i (h : i < (buildChunks payload cs).length)
          (h2 : i + 1 < (buildChunks payload cs).length),
        ((buildChunks payload cs).get ⟨i, h⟩).stop
          = ((buildChunks payload cs).get ⟨i + 1, h2⟩).start)
    ∧ (∀ h : 0 < (buildChunks payload cs).length,
        ((buildChunks payload cs).get ⟨0, h⟩).start = 0)
    ∧ (∀ h : 0 < (buildChunks payload cs).length,
        ((buildChunks payload cs).get
            ⟨(buildChunks payload cs).length - 1, Nat.sub_lt h Nat.one_pos⟩).stop
          = payload.length)
    ∧ (∀ b, b < payload.length →
        ∃ i, ∃ h : i < (buildChunks payload cs).length,
          ((buildChunks payload cs).get ⟨i, h⟩).start ≤ b
            ∧ b < ((buildChunks payload cs).get ⟨i, h⟩).stop)
    ∧ (∀ i j (hi : i < (buildChunks payload cs).length)
          (hj : j < (buildChunks payload cs).length), i < j →
        ((buildChunks payload cs).get ⟨i, hi⟩).stop
          ≤ ((buildChunks payload cs).get ⟨j, hj⟩).start) := by
  have hlen := buildChunks_length payload cs
  refine ⟨hlen, ?_, ?_, ?_, ?_, ?_, ?_⟩
  · intro i h
    have hi : i < ceilTotal payload.length cs := hlen ▸ h
    have hin : i * cs < payload.length := ceil_mul_lt hcs hi
    rw [buildChunks_get h]
    refine ⟨rfl, rfl, rfl, ?_⟩
    have hstep : i * cs < (i + 1) * cs := by
      rw [Nat.succ_mul]; omega
    exact lt_min hstep hin
  · intro i h h2
    have hi2 : i + 1 < ceilTotal payload.length cs := hlen ▸ h2
    have hin : (i + 1) * cs < payload.length := ceil_mul_lt hcs hi2
    rw [buildChunks_get h, buildChunks_get h2]
    exact min_eq_left (Nat.le_of_lt hin)
  · intro h
    rw [buildChunks_get h]
    exact Nat.zero_mul cs
  · intro h
    rw [buildChunks_get (Nat.sub_lt h Nat.one_pos)]
    have h1 : (buildChunks payload cs).length - 1 + 1 = ceilTotal payload.length cs := by
      omega
    rw [h1]
    exact min_eq_right (le_ceil_mul hcs)
  · intro b hb
    refine ⟨b / cs, ?_, ?_⟩
    · rw [hlen]
      unfold ceilTotal
      have hform : payload.length + cs - 1 = payload.length - 1 + cs := by omega
      rw [hform, Nat.add_div_right _ (by omega)]
      have hle : b / cs ≤ (payload.length - 1) / cs :=
        Nat.div_le_div_right (by omega)
      omega
    · rw [buildChunks_get]
      refine ⟨Nat.div_mul_le_self b cs, lt_min ?_ hb⟩
      have h1 := Nat.div_add_mod b cs
      have h2 : b % cs < cs := Nat.mod_lt _ (by omega)
      rw [Nat.succ_mul]
      generalize b / cs = q at *
      generalize b % cs = r at *
      generalize hx : q * cs = x at *
      rw [Nat.mul_comm] at h1
      omega
  · intro i j hi hj hij
    rw [buildChunks_get hi, buildChunks_get hj]
    calc min ((i + 1) * cs) payload.length ≤ (i + 1) * cs := Nat.min_le_left _ _
      _ ≤ j * cs := Nat.mul_le_mul_right cs hij
      _ = j * cs := rfl

theorem C3_amended_witness :
    (buildChunks [5, 6, 7] 2).length = ceilTotal 3 2 :=
  (C3_amended_layout [5, 6, 7] 2 (by decide)).1

theorem foldl_append_bytes (cs : List Chunk) :
    ∀ init : List Nat,
      cs.foldl (fun st c => st ++ c.bytes) init = init ++ concatBytes cs := by
  induction cs with
  | nil => intro init; simp [concatBytes]
  | cons c cs ih => intro init; simp [concatBytes, ih, List.append_assoc]

theorem hash_eq_concat {α : Type} (d : List Nat → α) (chunks : List Chunk) :
    hash d chunks = d (concatBytes chunks) := by
  unfold hash
  rw [foldl_append_bytes]
  simp

theorem bytes_take (payload : List Nat) (cs i : Nat) :
    sliceBytes payload (i * cs) (min ((i + 1) * cs) payload.length)
      = (payload.drop (i * cs)).take cs := by
  unfold sliceBytes
  apply List.take_eq_take.mpr
  rw [List.length_drop]
  rw [Nat.succ_mul]
  omega

theorem join_slices (cs : Nat) :
    ∀ (k : Nat) (payload : List Nat),
      ((List.range k).map fun i => (payload.drop (i * cs)).take cs).flatten
        = payload.take (k * cs) := by
  intro k
  induction k with
  | zero => intro payload; simp
  | succ k ih =>
    intro payload
    rw [List.range_succ, List.map_append, List.flatten_append, ih, Nat.succ_mul,
      List.take_add]
    simp

theorem concatBytes_buildChunks (payload : List Nat) (cs : Nat) (hcs : 1 ≤ cs) :
    concatBytes (buildChunks payload cs) = payload := by
  unfold concatBytes buildChunks
  rw [List.map_map]
  have hf : ((fun c : Chunk => c.bytes) ∘ fun i : Nat =>
      ({ index := i
         start := i * cs
         stop := min ((i + 1) * cs) payload.length
         bytes := sliceBytes payload (i * cs) (min ((i + 1) * cs) payload.length)
         status := CStatus.idle
         response := none
         hash := none } : Chunk))
      = fun i : Nat => (payload.drop (i * cs)).take cs := by
    funext i
    exact bytes_take payload cs i
  rw [hf, join_slices cs (ceilTotal payload.length cs) payload]
  exact List.take_of_length_le (le_ceil_mul hcs)

/-- Claim C8: the whole-payload digest loop feeds every chunk's bytes in
index order into one shared incremental hasher, sequentially; for any
digest function it therefore resolves to the digest of the concatenation
of all chunk byte ranges in index order, and on the chunks the constructor
plans for a payload this concatenation is the payload itself. -/
theorem C8_whole_digest (payload : List Nat) (cs : Nat) (hcs : 1 ≤ cs) :
    (∀ (α : Type) (d : List Nat → α) (chunks : List Chunk),
        hash d chunks = d (concatBytes chunks))
    ∧ (∀ (α : Type) (d : List Nat → α),
        hash d (buildChunks payload cs) = d payload) := by
  refine ⟨fun α d chunks => hash_eq_concat d chunks, fun α d => ?_⟩
  rw [hash_eq_concat, concatBytes_buildChunks payload cs hcs]

theorem C8_whole_digest_witness :
    hash (fun l => l) (buildChunks [1, 2, 3] 2) = [1, 2, 3] :=
  (C8_whole_digest [1, 2, 3] 2 (by decide)).2 (List Nat) (fun l => l)

/-! ### Status-event and stability lemmas (claim C9) -/

theorem evOk_nil : evOk [] := by
  intro e he
  cases he

theorem evOk_append {a b : List StatusEvent} (ha : evOk a) (hb : evOk b) :
    evOk (a ++ b) := by
  intro e he
  rcases List.mem_append.mp he with h | h
  · exact ha e h
  · exact hb e h

theorem evOk_transEvents_success (i : Nat) (a : CStatus) :
    evOk (transEvents i a CStatus.success) := by
  cases a <;> simp [transEvents, evOk, amendedEdge, specEdge]

theorem evOk_uploadChunk (req : Nat → ReqOutcome) (c : Chunk) :
    evOk (uploadChunk req c).events := by
  unfold uploadChunk
  by_cases hc : c.status = CStatus.success
  · simp only [hc, if_pos rfl]
    exact evOk_nil
  · cases hr : req c.index with
    | prepError =>
      simp only [hc, if_neg hc, hr]
      cases hs : c.status
      · simp [transEvents, evOk, amendedEdge, specEdge]
      · simp [transEvents, evOk, amendedEdge, specEdge]
      · simp [hs] at hc
    | respond rej =>
      simp only [hc, if_neg hc, hr]
      cases hs : c.status
      · simp [transEvents, evOk, amendedEdge, specEdge]
      · simp [transEvents, evOk, amendedEdge, specEdge]
      · simp [hs] at hc

theorem evOk_runPass (req : Nat → ReqOutcome) :
    ∀ cs : List Chunk, evOk (runPass req cs).events := by
  intro cs
  induction cs with
  | nil => exact evOk_nil
  | cons c cs ih =>
    simp only [runPass]
    exact evOk_append (evOk_uploadChunk req c) ih

theorem evOk_markSkipsAux (skips : List Nat) :
    ∀ (cs : List Chunk) (i : Nat), evOk (markSkipsAux skips i cs).2 := by
  intro cs
  induction cs with
  | nil => intro i; exact evOk_nil
  | cons c cs ih =>
    intro i
    unfold markSkipsAux
    by_cases hm : i ∈ skips
    · simp only [hm, if_pos hm]
      exact evOk_append (evOk_transEvents_success c.index c.status) (ih (i + 1))
    · simp only [hm, if_neg hm]
      exact ih (i + 1)

theorem evOk_uploadChunks (req : Nat → ReqOutcome) (s : State) :
    evOk (uploadChunks req s).events := by
  unfold uploadChunks
  by_cases ho : s.onLine = false
  · simp only [ho, if_pos rfl]
    exact evOk_nil
  · simp only [ho, if_neg ho]
    by_cases h1 : (runPass req s.chunks).rejected
    · simp only [h1, if_pos rfl]
      exact evOk_runPass req s.chunks
    · simp only [h1]
      by_cases hf : s.finiteLimit
      · simp only [hf, if_pos rfl, if_neg h1, Bool.false_eq_true, if_false]
        by_cases h2 : (runPass req (runPass req s.chunks).chunks).rejected
        · simp only [h2, if_pos rfl]
          exact evOk_append (evOk_runPass req s.chunks) (evOk_runPass req _)
        · simp only [h2, Bool.false_eq_true, if_false]
          exact evOk_append (evOk_runPass req s.chunks) (evOk_runPass req _)
      · simp only [hf, Bool.false_eq_true, if_false, if_neg h1]
        exact evOk_runPass req s.chunks

theorem evOk_start (skips : List Nat) (req : Nat → ReqOutcome) (s : State) :
    evOk (start skips req s).events := by
  unfold start
  by_cases hs : s.status = UStatus.idle
  · simp only [hs, if_pos rfl]
    exact evOk_append (evOk_markSkipsAux skips s.chunks 0) (evOk_uploadChunks req _)
  · simp only [hs, if_neg hs]
    exact evOk_nil

theorem evOk_resume (req : Nat → ReqOutcome) (s : State) :
    evOk (resume req s).events := by
  unfold resume
  by_cases hs : s.status = UStatus.paused
  · simp only [hs, if_pos rfl]
    exact evOk_uploadChunks req _
  · simp only [hs, if_neg hs]
    exact evOk_nil

theorem evOk_setOnLine (v : Bool) (req : Nat → ReqOutcome) (s : State) :
    evOk (setOnLine v req s).events := by
  unfold setOnLine
  by_cases hv : v = true
  · rw [if_pos hv]
    by_cases hs : ({ s with onLine := v } : State).status = UStatus.paused
    · rw [if_pos hs]
      exact evOk_resume req _
    · rw [if_neg hs]
      exact evOk_nil
  · rw [if_neg hv]
    by_cases hs : ({ s with onLine := v } : State).status = UStatus.pending
    · rw [if_pos hs]
      exact evOk_nil
    · rw [if_neg hs]
      exact evOk_nil

theorem stable_refl (a : List Chunk) : stable a a := by
  unfold stable
  induction a with
  | nil => exact List.Forall₂.nil
  | cons c cs ih => exact List.Forall₂.cons (fun h => h) ih

theorem stable_trans : ∀ {a b c : List Chunk}, stable a b → stable b c → stable a c := by
  intro a b c h1 h2
  induction h1 generalizing c with
  | nil => cases h2; exact List.Forall₂.nil
  | cons hab _ ih =>
    cases h2 with
    | cons hbc h2t => exact List.Forall₂.cons (fun hs => hbc (hab hs)) (ih h2t)

theorem stable_map_of_pointwise {f : Chunk → Chunk}
    (hf : ∀ c : Chunk, c.status = CStatus.success → (f c).status = CStatus.success) :
    ∀ cs : List Chunk, stable cs (cs.map f) :=
  forall₂_map_self _ f hf

theorem runPass_chunks_map (req : Nat → ReqOutcome) :
    ∀ cs : List Chunk,
      (runPass req cs).chunks = cs.map fun c => (uploadChunk req c).chunk := by
  intro cs
  induction cs with
  | nil => rfl
  | cons c cs ih => simp only [runPass, List.map_cons, ih]

theorem stable_runPass (req : Nat → ReqOutcome) (cs : List Chunk) :
    stable cs (runPass req cs).chunks := by
  rw [runPass_chunks_map]
  apply stable_map_of_pointwise
  intro c h
  rw [uploadChunk_of_success h]
  exact h

theorem stable_markSkipsAux (skips : List Nat) :
    ∀ (cs : List Chunk) (i : Nat), stable cs (markSkipsAux skips i cs).1 := by
  intro cs
  induction cs with
  | nil => intro i; exact List.Forall₂.nil
  | cons c cs ih =>
    intro i
    unfold markSkipsAux
    by_cases hm : i ∈ skips
    · simp only [hm, if_pos rfl]
      exact List.Forall₂.cons (fun _ => rfl) (ih (i + 1))
    · simp only [hm, if_neg hm]
      exact List.Forall₂.cons (fun h => h) (ih (i + 1))

theorem stable_uploadChunks (req : Nat → ReqOutcome) (s : State) :
    stable s.chunks (uploadChunks req s).state.chunks := by
  unfold uploadChunks
  by_cases ho : s.onLine = false
  · simp only [ho, if_pos rfl]
    exact stable_refl s.chunks
  · simp only [ho, if_neg ho]
    by_cases h1 : (runPass req s.chunks).rejected
    · simp only [h1, if_pos rfl]
      exact stable_runPass req s.chunks
    · simp only [h1]
      by_cases hf : s.finiteLimit
      · simp only [hf, if_pos rfl, Bool.false_eq_true, if_false]
        by_cases h2 : (runPass req (runPass req s.chunks).chunks).rejected
        · simp only [h2, if_pos rfl]
          exact stable_trans (stable_runPass req s.chunks) (stable_runPass req _)
        · simp only [h2, Bool.false_eq_true, if_false]
          exact stable_trans (stable_runPass req s.chunks) (stable_runPass req _)
      · simp only [hf, Bool.false_eq_true, if_false]
        exact stable_runPass req s.chunks

theorem stable_start (skips : List Nat) (req : Nat → ReqOutcome) (s : State) :
    stable s.chunks (start skips req s).state.chunks := by
  unfold start
  by_cases hs : s.status = UStatus.idle
  · rw [if_pos hs]
    show stable s.chunks
      (uploadChunks req { s with chunks := (markSkipsAux skips 0 s.chunks).1 }).state.chunks
    exact stable_trans (stable_markSkipsAux skips s.chunks 0)
      (stable_uploadChunks req { s with chunks := (markSkipsAux skips 0 s.chunks).1 })
  · rw [if_neg hs]
    exact stable_refl s.chunks

theorem stable_resume (req : Nat → ReqOutcome) (s : State) :
    stable s.chunks (resume req s).state.chunks := by
  unfold resume
  by_cases hs : s.status = UStatus.paused
  · rw [if_pos hs]
    show stable s.chunks (uploadChunks req { s with error := none }).state.chunks
    exact stable_uploadChunks req { s with error := none }
  · rw [if_neg hs]
    exact stable_refl s.chunks

theorem stable_setOnLine (v : Bool) (req : Nat → ReqOutcome) (s : State) :
    stable s.chunks (setOnLine v req s).state.chunks := by
  unfold setOnLine
  by_cases hv : v = true
  · rw [if_pos hv]
    by_cases hs : ({ s with onLine := v } : State).status = UStatus.paused
    · rw [if_pos hs]
      show stable s.chunks (resume req { s with onLine := v }).state.chunks
      exact stable_resume req { s with onLine := v }
    · rw [if_neg hs]
      exact stable_refl s.chunks
  · rw [if_neg hv]
    by_cases hs : ({ s with onLine := v } : State).status = UStatus.pending
    · rw [if_pos hs]
      show stable s.chunks (pause { s with onLine := v }).1.chunks
      unfold pause
      rw [if_pos hs]
      exact stable_refl s.chunks
    · rw [if_neg hs]
      exact stable_refl s.chunks

/-- Claim C9 (counterexample): the claim says every status transition
follows idle → pending → {success, idle}.  Starting a fresh single-chunk
uploader (offline, so nothing else happens) with skip list [0] assigns the
idle chunk directly to success in a single step, an edge absent from the
claimed diagram. -/
theorem C9_skip_edge_counterexample :
    let s := fresh "f" 0 [7] 1 false false
    let o := start [0] (fun _ => ReqOutcome.respond false) s
    o.events = [⟨0, CStatus.idle, CStatus.success⟩]
      ∧ specEdge CStatus.idle CStatus.success = false := by
  decide

/-- Claim C9 (amended): over every state and every operation (start with
any skip list, resume, pause, setting onLine, abort), every single-step
chunk-status change follows idle → pending → {success, idle} extended with
the direct idle → success edge taken by skip-index pre-seeding; in
particular no recorded change ever leaves success, and positionally every
chunk that is success before an operation is still success after it
(store() does not mutate the chunk list at all). -/
theorem C9_amended_transitions (s : State) (req : Nat → ReqOutcome)
    (skips : List Nat) (v : Bool) :
    evOk (start skips req s).events
    ∧ evOk (resume req s).events
    ∧ evOk (setOnLine v req s).events
    ∧ (∀ e ∈ (start skips req s).events, e.pre ≠ CStatus.success)
    ∧ stable s.chunks (start skips req s).state.chunks
    ∧ stable s.chunks (resume req s).state.chunks
    ∧ stable s.chunks (setOnLine v req s).state.chunks
    ∧ (pause s).1.chunks = s.chunks
    ∧ (abort s).1.chunks = s.chunks := by
  refine ⟨evOk_start skips req s, evOk_resume req s, evOk_setOnLine v req s, ?_,
    stable_start skips req s, stable_resume req s, stable_setOnLine v req s, ?_, ?_⟩
  · intro e he
    have h := evOk_start skips req s e he
    intro hpre
    rw [hpre] at h
    cases hpost : e.post <;> rw [hpost] at h <;>
      simp [amendedEdge, specEdge] at h
  · unfold pause
    by_cases hs : s.status = UStatus.pending
    · rw [if_pos hs]
    · rw [if_neg hs]
  · unfold abort
    by_cases hs : s.status = UStatus.pending
    · rw [if_pos hs]
    · rw [if_neg hs]

theorem C9_amended_witness :
    evOk (start [0] (fun _ => ReqOutcome.respond false)
      (fresh "f" 0 [7] 1 false true)).events :=
  (C9_amended_transitions (fresh "f" 0 [7] 1 false true)
    (fun _ => ReqOutcome.respond false) [0] true).1

/-! ### Round-trip lemmas (claim C6) -/

theorem markSkipsAux_nil : ∀ (cs : List Chunk) (i : Nat), markSkipsAux [] i cs = (cs, []) := by
  intro cs
  induction cs with
  | nil => intro i; rfl
  | cons c cs ih =>
    intro i
    unfold markSkipsAux
    simp [ih (i + 1)]

theorem uploadChunk_reqLog (req : Nat → ReqOutcome) (c : Chunk) :
    (uploadChunk req c).reqLog = [] ∨
      ((uploadChunk req c).reqLog = [c.index] ∧ c.status ≠ CStatus.success) := by
  unfold uploadChunk
  by_cases hc : c.status = CStatus.success
  · left
    rw [if_pos hc]
  · rw [if_neg hc]
    cases hr : req c.index with
    | prepError => left; rfl
    | respond rej => right; exact ⟨rfl, hc⟩

theorem runPass_reqLog_sub (req : Nat → ReqOutcome) :
    ∀ (cs : List Chunk) (x : Nat), x ∈ (runPass req cs).reqLog →
      ∃ c, c ∈ cs ∧ c.status ≠ CStatus.success ∧ x = c.index := by
  intro cs
  induction cs with
  | nil => intro x hx; cases hx
  | cons c cs ih =>
    intro x hx
    simp only [runPass] at hx
    rcases List.mem_append.mp hx with h | h
    · rcases uploadChunk_reqLog req c with h0 | ⟨h0, hns⟩
      · rw [h0] at h
        cases h
      · rw [h0] at h
        exact ⟨c, List.mem_cons_self c cs, hns, List.mem_singleton.mp h⟩
    · rcases ih x h with ⟨c2, hc2, hns, hx2⟩
      exact ⟨c2, List.mem_cons_of_mem c hc2, hns, hx2⟩

theorem runPass_reqLog_exact (req : Nat → ReqOutcome)
    (hreq : ∀ i, req i ≠ ReqOutcome.prepError) :
    ∀ cs : List Chunk,
      (runPass req cs).reqLog
        = (cs.filter fun c => !decide (c.status = CStatus.success)).map
            fun c => c.index := by
  intro cs
  induction cs with
  | nil => rfl
  | cons c cs ih =>
    simp only [runPass]
    by_cases hc : c.status = CStatus.success
    · rw [uploadChunk_of_success hc]
      simp [hc, ih]
    · have hlog : (uploadChunk req c).reqLog = [c.index] := by
        unfold uploadChunk
        rw [if_neg hc]
        cases hr : req c.index with
        | prepError => exact absurd hr (hreq c.index)
        | respond rej => rfl
      rw [hlog]
      simp [hc, ih]

theorem start_restore_reqLog (st : StoredFile) (req : Nat → ReqOutcome) :
    (start [] req (restore st false true)).reqLog = (runPass req st.chunks).reqLog := by
  simp only [start, restore, markSkipsAux_nil, uploadChunks]
  by_cases h1 : (runPass req st.chunks).rejected <;> simp [h1]

theorem concatBytes_store (cs : List Chunk) :
    concatBytes (cs.map storeChunk) = concatBytes cs := by
  unfold concatBytes
  rw [List.map_map]
  have hf : ((fun c : Chunk => c.bytes) ∘ storeChunk) = fun c : Chunk => c.bytes := by
    funext c
    rfl
  rw [hf]

/-- Claim C6: reconstructing an uploader from the value store() returned
gives total = the stored chunk list's length and loaded = the number of
stored success chunks; starting it with no skip list invokes the transport
only for chunks whose stored status is not success (and, when no
preparation step can fail, for exactly those chunks in index order); and
its whole-payload digest is computed over the same bytes as the original
uploader's, hence resolves to the same value for any digest function. -/
theorem C6_store_restore_roundtrip (s : State) (req : Nat → ReqOutcome)
    (hreq : ∀ i, req i ≠ ReqOutcome.prepError) :
    (restore (store s) false true).total = (store s).chunks.length
    ∧ (restore (store s) false true).loaded = countSuccess (store s).chunks
    ∧ (∀ (req2 : Nat → ReqOutcome) (x : Nat),
        x ∈ (start [] req2 (restore (store s) false true)).reqLog →
        ∃ c, c ∈ (store s).chunks ∧ c.status ≠ CStatus.success ∧ x = c.index)
    ∧ (start [] req (restore (store s) false true)).reqLog
        = ((store s).chunks.filter fun c => !decide (c.status = CStatus.success)).map
            (fun c => c.index)
    ∧ (∀ (α : Type) (d : List Nat → α),
        hash d (restore (store s) false true).chunks = hash d s.chunks) := by
  refine ⟨rfl, rfl, ?_, ?_, ?_⟩
  · intro req2 x hx
    rw [start_restore_reqLog (store s) req2] at hx
    exact runPass_reqLog_sub req2 (store s).chunks x hx
  · rw [start_restore_reqLog (store s) req]
    exact runPass_reqLog_exact req hreq (store s).chunks
  · intro α d
    show hash d (s.chunks.map storeChunk) = hash d s.chunks
    rw [hash_eq_concat, hash_eq_concat, concatBytes_store]

theorem C6_store_restore_roundtrip_witness :
    let c0 : Chunk := { index := 0, start := 0, stop := 1, bytes := [3]
                        status := CStatus.success, response := some 0, hash := none }
    let c1 : Chunk := { index := 1, start := 1, stop := 2, bytes := [4]
                        status := CStatus.idle, response := none, hash := none }
    let s : State := { fileInfo := ⟨"f", 2, 0⟩, chunks := [c0, c1], total := 2, loaded := 1
                       status := UStatus.error, error := some "UploadError", onLine := true
                       finiteLimit := false }
    (start [] (fun _ => ReqOutcome.respond false) (restore (store s) false true)).reqLog
      = ((store s).chunks.filter fun c => !decide (c.status = CStatus.success)).map
          (fun c => c.index) :=
  (C6_store_restore_roundtrip
    { fileInfo := ⟨"f", 2, 0⟩
      chunks := [{ index := 0, start := 0, stop := 1, bytes := [3]
                   status := CStatus.success, response := some 0, hash := none },
                 { index := 1, start := 1, stop := 2, bytes := [4]
                   status := CStatus.idle, response := none, hash := none }]
      total := 2, loaded := 1, status := UStatus.error, error := some "UploadError"
      onLine := true, finiteLimit := false }
    (fun _ => ReqOutcome.respond false)
    (fun _ h => ReqOutcome.noConfusion h)).2.2.2.1

theorem C10_amended_offline_error_witness :
    (start [] (fun _ => ReqOutcome.respond false)
        (fresh "f" 0 [7] 1 false false)).state.error = some "OfflineError"
    ∧ (start [] (fun _ => ReqOutcome.respond false)
        (fresh "f" 0 [7] 1 false false)).state.status = UStatus.paused :=
  ⟨((C10_amended_offline_error (fresh "f" 0 [7] 1 false false)
      (fun _ => ReqOutcome.respond false)).1 rfl rfl).1,
   ((C10_amended_offline_error (fresh "f" 0 [7] 1 false false)
      (fun _ => ReqOutcome.respond false)).1 rfl rfl).2.1⟩

theorem C5_amended_store_normalizes_witness :
    (store { fileInfo := ⟨"f", 1, 0⟩, chunks := [], total := 1, loaded := 0
             status := UStatus.idle, error := none, onLine := true
             finiteLimit := false }).name = "f" :=
  (C5_amended_store_normalizes
    { fileInfo := ⟨"f", 1, 0⟩, chunks := [], total := 1, loaded := 0
      status := UStatus.idle, error := none, onLine := true
      finiteLimit := false }).1

end ChunkedUploader
